import Mathlib

/-!
Verification development for the modcore clipboard vault
(`background.js` pending-queue capture, `popup.js` crypto/session logic,
`content.js` monitoring listener).

The JavaScript source is shallowly embedded: every handler becomes a pure
Lean function over an explicit session state and an explicit model of
`chrome.storage.local`; the asynchronous-but-serialized control flow of the
source is modelled by plain sequential function composition, and each source
of nondeterminism (random salt, random IV, `crypto.randomUUID`, `Date.now`,
storage success/failure) becomes an explicit parameter.

`AES-GCM` + `JSON.stringify`/`TextEncoder` are modelled as an executable
authenticated envelope: the ciphertext is an injective byte encoding of the
triple (key, iv, plaintext bytes), so that decryption succeeds exactly when
the supplied key and iv match those bound at encryption time, and the
plaintext round-trips.  Keys are the opaque `CryptoKey` handles of WebCrypto,
modelled as naturals; PBKDF2 (`deriveKey`) is modelled as an injective
function of (pin, salt).
-/

namespace Modcore

/-- All-purpose little-endian base-256 byte encoding of a natural, written
with explicit fuel so that it is structural recursion (the fuel `n` always
suffices because `n / 256 < n` for `n > 0`). -/
def natToBytesAux : Nat → Nat → List Nat
  | _, 0 => []
  | 0, _ + 1 => []
  | fuel + 1, n + 1 => ((n + 1) % 256) :: natToBytesAux fuel ((n + 1) / 256)

/-- Little-endian base-256 digits of `n`; the model of a byte string. -/
def natToBytes (n : Nat) : List Nat := natToBytesAux n n

/-- Inverse of `natToBytes`; each entry is taken mod 256, matching the
coercion a JavaScript `Uint8Array` applies to its numeric entries. -/
def bytesToNat : List Nat → Nat
  | [] => 0
  | b :: bs => b % 256 + 256 * bytesToNat bs

theorem bytesToNat_natToBytesAux :
    ∀ fuel n, n ≤ fuel → bytesToNat (natToBytesAux fuel n) = n := by
  intro fuel
  induction fuel with
  | zero =>
    intro n hn
    interval_cases n
    simp [natToBytesAux, bytesToNat]
  | succ f ih =>
    intro n hn
    match n with
    | 0 => simp [natToBytesAux, bytesToNat]
    | m + 1 =>
      have hdiv : (m + 1) / 256 ≤ f := by
        have h1 : (m + 1) / 256 < m + 1 := Nat.div_lt_self (Nat.succ_pos m) (by norm_num)
        omega
      have : bytesToNat (natToBytesAux f ((m + 1) / 256)) = (m + 1) / 256 := ih _ hdiv
      simp only [natToBytesAux, bytesToNat, this]
      have hb : (m + 1) % 256 < 256 := Nat.mod_lt _ (by norm_num)
      rw [Nat.mod_eq_of_lt hb]
      exact Nat.mod_add_div (m + 1) 256

theorem bytesToNat_natToBytes (n : Nat) : bytesToNat (natToBytes n) = n :=
  bytesToNat_natToBytesAux n n le_rfl

theorem natToBytesAux_lt :
    ∀ fuel n, ∀ b ∈ natToBytesAux fuel n, b < 256 := by
  intro fuel
  induction fuel with
  | zero =>
    intro n b hb
    match n with
    | 0 => simp [natToBytesAux] at hb
    | m + 1 => simp [natToBytesAux] at hb
  | succ f ih =>
    intro n b hb
    match n with
    | 0 => simp [natToBytesAux] at hb
    | m + 1 =>
      simp only [natToBytesAux, List.mem_cons] at hb
      rcases hb with h | h
      · exact h ▸ Nat.mod_lt _ (by norm_num)
      · exact ih _ _ h

theorem natToBytes_lt (n : Nat) : ∀ b ∈ natToBytes n, b < 256 :=
  natToBytesAux_lt n n

/-- A list of small bytes is unchanged by the `Uint8Array` mod-256 coercion. -/
theorem map_mod_eq_self {l : List Nat} (h : ∀ b ∈ l, b < 256) :
    l.map (fun b => b % 256) = l := by
  induction l with
  | nil => rfl
  | cons a l ih =>
    have ha : a < 256 := h a (List.mem_cons_self a l)
    simp only [List.map_cons, Nat.mod_eq_of_lt ha, List.cons.injEq, true_and]
    exact ih fun b hb => h b (List.mem_cons_of_mem a hb)

/-- Injective encoding of a list of naturals into one natural, by iterated
pairing (the carrier of the modelled `JSON` serialization). -/
def encListNat : List Nat → Nat
  | [] => 0
  | a :: l => Nat.pair a (encListNat l) + 1

/-- Fueled structural decoder for `encListNat` (fuel `n` suffices since
each unpairing strictly shrinks the code). -/
def decListNatAux : Nat → Nat → List Nat
  | _, 0 => []
  | 0, _ + 1 => []
  | fuel + 1, n + 1 => (Nat.unpair n).1 :: decListNatAux fuel (Nat.unpair n).2

/-- Total decoder, left inverse of `encListNat`. -/
def decListNat (n : Nat) : List Nat := decListNatAux n n

theorem decListNatAux_encListNat :
    ∀ (l : List Nat) (fuel : Nat), encListNat l ≤ fuel →
      decListNatAux fuel (encListNat l) = l := by
  intro l
  induction l with
  | nil => intro fuel _; cases fuel <;> simp [encListNat, decListNatAux]
  | cons a l ih =>
    intro fuel hf
    match fuel, hf with
    | f + 1, hf =>
      have hpair : Nat.pair a (encListNat l) ≤ f := by
        simpa [encListNat] using hf
      have hl : encListNat l ≤ f :=
        le_trans (Nat.right_le_pair a (encListNat l)) hpair
      simp [encListNat, decListNatAux, Nat.unpair_pair, ih f hl]

theorem decListNat_encListNat (l : List Nat) : decListNat (encListNat l) = l :=
  decListNatAux_encListNat l _ le_rfl

theorem encListNat_injective : Function.Injective encListNat :=
  Function.LeftInverse.injective decListNat_encListNat

/-- Injective encoding of a string (its character codes) into a natural. -/
def encString (s : String) : Nat := encListNat (s.data.map Char.toNat)

/-- Total decoder, left inverse of `encString` on actual strings. -/
def decString (n : Nat) : String := ⟨(decListNat n).map Char.ofNat⟩

theorem decString_encString (s : String) : decString (encString s) = s := by
  have hl : ∀ data : List Char, List.map (Char.ofNat ∘ Char.toNat) data = data := by
    intro data
    induction data with
    | nil => rfl
    | cons c l ih => simp [Function.comp, Char.ofNat_toNat, ih]
  cases s with
  | mk data => simp only [decString, encString, decListNat_encListNat, List.map_map, hl]

theorem encString_injective : Function.Injective encString :=
  Function.LeftInverse.injective decString_encString

/-- Option-valued `mapM`, the model of a fallible element-wise decode. -/
def optMapM {α β : Type} (f : α → Option β) : List α → Option (List β)
  | [] => some []
  | a :: l =>
    match f a, optMapM f l with
    | some b, some bs => some (b :: bs)
    | _, _ => none

theorem optMapM_map {α β : Type} (f : β → Option α) (g : α → β)
    (hfg : ∀ a, f (g a) = some a) (l : List α) : optMapM f (l.map g) = some l := by
  induction l with
  | nil => rfl
  | cons a l ih => simp [optMapM, hfg a, ih]

/-- The `type` discriminator of a stored snippet (`"text" | "image"`). -/
inductive SnipType
  | text
  | image
deriving DecidableEq

/-- A snippet record as built by `saveSnippet` / `processPendingClips`:
`{ id, type, content, metaText, tags, date }`.  The UUID id is modelled as a
natural, timestamps as naturals. -/
structure Snippet where
  id : Nat
  type : SnipType
  content : String
  metaText : Option String
  tags : List String
  date : Nat
deriving DecidableEq

def SnipType.toNat : SnipType → Nat
  | .text => 0
  | .image => 1

def decSnipType : Nat → Option SnipType
  | 0 => some .text
  | 1 => some .image
  | _ => none

theorem decSnipType_toNat (t : SnipType) : decSnipType t.toNat = some t := by
  cases t <;> rfl

def encOptString : Option String → Nat
  | none => 0
  | some s => encString s + 1

def decOptString : Nat → Option String
  | 0 => none
  | n + 1 => some (decString n)

theorem decOptString_encOptString (o : Option String) :
    decOptString (encOptString o) = o := by
  cases o <;> simp [encOptString, decOptString, decString_encString]

/-- Injective numeric code of one snippet (model of its `JSON` object). -/
def encSnippet (s : Snippet) : Nat :=
  Nat.pair s.id (Nat.pair s.type.toNat (Nat.pair (encString s.content)
    (Nat.pair (encOptString s.metaText)
      (Nat.pair (encListNat (s.tags.map encString)) s.date))))

/-- Decoder for `encSnippet` (model of `JSON.parse` on one snippet). -/
def decSnippet (n : Nat) : Option Snippet :=
  let rest := n.unpair.2
  let rest2 := rest.unpair.2
  let rest3 := rest2.unpair.2
  let rest4 := rest3.unpair.2
  match decSnipType rest.unpair.1 with
  | none => none
  | some t =>
    some ⟨n.unpair.1, t, decString rest2.unpair.1, decOptString rest3.unpair.1,
      (decListNat rest4.unpair.1).map decString, rest4.unpair.2⟩

theorem decSnippet_encSnippet (s : Snippet) : decSnippet (encSnippet s) = some s := by
  have htags : ((decListNat (encListNat (s.tags.map encString))).map decString) = s.tags := by
    rw [decListNat_encListNat, List.map_map]
    have : ∀ l : List String, List.map (decString ∘ encString) l = l := by
      intro l
      induction l with
      | nil => rfl
      | cons a l ih => simp [Function.comp, decString_encString, ih]
    exact this s.tags
  simp [decSnippet, encSnippet, Nat.unpair_pair, decSnipType_toNat,
    decString_encString, decOptString_encOptString, htags]

/-- The collection is the full ordered list of snippets, encrypted as one
blob; this is its serialized numeric code (model of `JSON.stringify`). -/
def encCollection (c : List Snippet) : Nat := encListNat (c.map encSnippet)

/-- Model of `JSON.parse` back to a collection. -/
def decCollection (n : Nat) : Option (List Snippet) :=
  optMapM decSnippet (decListNat n)

theorem decCollection_encCollection (c : List Snippet) :
    decCollection (encCollection c) = some c := by
  rw [decCollection, encCollection, decListNat_encListNat]
  exact optMapM_map decSnippet encSnippet decSnippet_encSnippet c

/-- CryptoCore.deriveKey: PBKDF2-SHA-256 (200000 iterations) is modelled as
an injective deterministic function of the PIN and the salt, returning the
opaque `CryptoKey` handle (a natural). -/
def deriveKey (pin : String) (salt : List Nat) : Nat :=
  Nat.pair (encString pin) (encListNat salt)

theorem deriveKey_pin_ne {pin pin' : String} (salt : List Nat)
    (h : pin ≠ pin') : deriveKey pin salt ≠ deriveKey pin' salt := by
  intro he
  apply h
  have := congrArg Nat.unpair he
  simp only [deriveKey, Nat.unpair_pair, Prod.mk.injEq] at this
  exact encString_injective this.1

/-- A persisted ciphertext envelope `{ iv, content }`, both stored as plain
arrays of byte values (`Array.from`). -/
structure Envelope where
  iv : List Nat
  content : List Nat
deriving DecidableEq

/-- Model of `crypto.subtle.encrypt({name:'AES-GCM', iv}, key, data)`: an
authenticated cipher binding key and iv, as an injective byte encoding. -/
def aesGcmEncrypt (key : Nat) (iv pt : List Nat) : List Nat :=
  natToBytes (Nat.pair key (Nat.pair (encListNat iv) (encListNat pt)))

/-- Model of `crypto.subtle.decrypt`: succeeds (with the original plaintext)
exactly when the supplied key and iv are the ones bound at encryption. -/
def aesGcmDecrypt (key : Nat) (iv ct : List Nat) : Option (List Nat) :=
  let n := bytesToNat ct
  if n.unpair.1 = key ∧ decListNat n.unpair.2.unpair.1 = iv then
    some (decListNat n.unpair.2.unpair.2)
  else none

/-- CryptoCore.encrypt: serialize the collection, encrypt it under `key`
with the freshly generated 12-byte `iv` (passed here as a parameter since it
is the call's randomness), and return `{ iv, content }` as byte arrays. -/
def encrypt (data : List Snippet) (key : Nat) (iv : List Nat) : Envelope :=
  ⟨iv, aesGcmEncrypt key iv (natToBytes (encCollection data))⟩

/-- The JavaScript errors `decrypt` can raise: the uniform
`Error('Decryption failed. Invalid PIN or corrupted data.')` thrown from its
`catch`, and the `TypeError` / `RangeError` a malformed envelope can raise
from the `new Uint8Array(...)` coercions performed before the `try`. -/
inductive JsError
  | typeErr
  | rangeErr
  | decryptionError
deriving DecidableEq

/-- A JavaScript value sitting in an envelope field: absent (`undefined`),
an array of numbers, or a plain number. -/
inductive EnvField
  | absent
  | bytes (bs : List Nat)
  | num (n : Int)
deriving DecidableEq

/-- An envelope as `decrypt` actually receives it: `null`/`undefined`, or an
object whose `iv` and `content` fields hold arbitrary values. -/
inductive JSEnvelope
  | nullish
  | obj (iv content : EnvField)
deriving DecidableEq

/-- `new Uint8Array(v)` on an envelope field: `undefined` gives an empty
array, an array coerces entries mod 256, a nonnegative number `n` gives `n`
zero bytes, and a negative number throws a `RangeError`. -/
def toTypedArray : EnvField → Except JsError (List Nat)
  | .absent => .ok []
  | .bytes bs => .ok (bs.map (fun b => b % 256))
  | .num n => if n < 0 then .error .rangeErr else .ok (List.replicate n.toNat 0)

/-- A well-formed envelope viewed as the JavaScript value `decrypt` gets. -/
def toJS (e : Envelope) : JSEnvelope := .obj (.bytes e.iv) (.bytes e.content)

/-- CryptoCore.decrypt: coerce `encryptedObj.iv` and `encryptedObj.content`
to typed arrays (outside the `try`, faithful to the source), then inside the
`try` run authenticated decryption and `JSON.parse`, turning any failure
there into the single uniform decryption error. -/
def decrypt (env : JSEnvelope) (key : Nat) : Except JsError (List Snippet) :=
  match env with
  | .nullish => .error .typeErr
  | .obj ivf cf =>
    match toTypedArray ivf with
    | .error e => .error e
    | .ok iv =>
      match toTypedArray cf with
      | .error e => .error e
      | .ok data =>
        match aesGcmDecrypt key iv data with
        | none => .error .decryptionError
        | some pt =>
          match decCollection (bytesToNat pt) with
          | none => .error .decryptionError
          | some c => .ok c

theorem decrypt_encrypt (c : List Snippet) (key : Nat) (iv : List Nat)
    (hiv : ∀ b ∈ iv, b < 256) :
    decrypt (toJS (encrypt c key iv)) key = .ok c := by
  simp only [decrypt, toJS, encrypt, toTypedArray, map_mod_eq_self hiv,
    map_mod_eq_self (natToBytes_lt _), aesGcmEncrypt, aesGcmDecrypt,
    bytesToNat_natToBytes, Nat.unpair_pair, decListNat_encListNat, and_self,
    if_true, bytesToNat_natToBytes, decCollection_encCollection]

theorem decrypt_wrong_key (c : List Snippet) (key key' : Nat) (iv : List Nat)
    (hk : key' ≠ key) :
    decrypt (toJS (encrypt c key iv)) key' = .error .decryptionError := by
  simp only [decrypt, toJS, encrypt, toTypedArray,
    map_mod_eq_self (natToBytes_lt _), aesGcmEncrypt, aesGcmDecrypt,
    bytesToNat_natToBytes, Nat.unpair_pair]
  rw [if_neg]
  intro hcon
  exact hk hcon.1.symm

/-- An unencrypted pending capture `{ content, timestamp }`. -/
structure PendingClip where
  content : String
  timestamp : Nat
deriving DecidableEq

/-- The in-memory session slice of `State`: the live `CryptoKey` (session
only) and the decrypted snippet collection.  The UI-only fields (search
query, pagination, modal state) are out of scope. -/
structure SessionState where
  key : Option Nat
  snippets : List Snippet
deriving DecidableEq

/-- The persisted `chrome.storage.local` record.  A missing key reads back
as `undefined`: `Option`/`nullish` model that. -/
structure Storage where
  salt : Option (List Nat)
  encryptedData : JSEnvelope
  pendingClips : Option (List PendingClip)
  monitoring : Option Bool
deriving DecidableEq

/-- The unshift-then-bound step of `addToPending` once the duplicate check
has passed: prepend the clip, and `pop()` the oldest entry if the queue now
exceeds 20. -/
def pushPending (content : String) (now : Nat) (list : List PendingClip) :
    List PendingClip :=
  let l := ⟨content, now⟩ :: list
  if l.length > 20 then l.dropLast else l

/-- background.js `addToPending`: suppress a capture whose content equals
the current queue head's content, otherwise prepend it (bounded to 20). -/
def addToPending (content : String) (now : Nat) (list : List PendingClip) :
    List PendingClip :=
  match list with
  | [] => pushPending content now []
  | first :: rest =>
    if first.content = content then first :: rest
    else pushPending content now (first :: rest)

/-- `validatePin`: the regular expression test `/^\d{6}$/.test(pin)`. -/
def validatePin (pin : String) : Bool :=
  pin.data.length == 6 && pin.data.all Char.isDigit

/-- Outcome of `saveEncrypted`: silently skipped for lack of a session key,
persisted, or caught a storage failure (toast only).  `stateError` is the
error value the spec's taxonomy prescribes for a mutate-while-Locked
precondition violation; no code path produces it. -/
inductive SaveOutcome
  | stateError
  | noKey
  | saved
  | failed
deriving DecidableEq

/-- `saveEncrypted`: re-encrypt the whole in-memory collection under the
session key and overwrite `encryptedData`.  `iv` is the fresh random IV the
inner `encrypt` call draws; `persistOk` models whether the
`chrome.storage.local.set` succeeds (its failure is caught and swallowed). -/
def saveEncrypted (st : SessionState) (store : Storage) (iv : List Nat)
    (persistOk : Bool) : Storage × SaveOutcome :=
  match st.key with
  | none => (store, .noKey)
  | some key =>
    if persistOk then
      ({ store with encryptedData := toJS (encrypt st.snippets key iv) }, .saved)
    else (store, .failed)

/-- The `pendingClips.forEach` loop of `processPendingClips`: walk the queue
in storage order, skip a clip when some snippet in the current (evolving)
collection has exactly its content, otherwise unshift a fresh text snippet
tagged `auto`.  `ids i` is the UUID returned by the `(i+1)`-th
`crypto.randomUUID()` call, `now` the `Date.now()` stamp, and the second
component is the running `count` of added snippets. -/
def ingestClips (ids : Nat → Nat) (now : Nat) :
    List PendingClip → List Snippet × Nat → List Snippet × Nat
  | [], acc => acc
  | clip :: rest, (snips, cnt) =>
    if snips.any (fun s => decide (s.content = clip.content)) then
      ingestClips ids now rest (snips, cnt)
    else
      ingestClips ids now rest
        (⟨ids cnt, .text, clip.content, none, ["auto"], now⟩ :: snips, cnt + 1)

/-- `processPendingClips`: drain the pending queue into the decrypted
collection; if anything was added, persist (via `saveEncrypted`) and then
remove `pendingClips` from storage. -/
def processPendingClips (ids : Nat → Nat) (now : Nat) (iv : List Nat)
    (persistOk : Bool) (st : SessionState) (store : Storage) :
    SessionState × Storage :=
  match store.pendingClips with
  | none => (st, store)
  | some clips =>
    if clips.isEmpty then (st, store)
    else
      let r := ingestClips ids now clips (st.snippets, 0)
      let st2 := { st with snippets := r.1 }
      if r.2 > 0 then
        let store2 := (saveEncrypted st2 store iv persistOk).1
        (st2, { store2 with pendingClips := none })
      else (st2, store)

/-- How `handleSetup` ends: rejected PIN, mismatched confirmation, success,
or a caught persistence failure. -/
inductive SetupOutcome
  | invalidPin
  | mismatch
  | ok
  | persistFailed
deriving DecidableEq

/-- Result of `handleSetup`: the session state and storage afterwards, the
outcome, and the list of PINs that were passed to `deriveKey` during the
run (the call trace of the key-derivation primitive). -/
structure SetupRes where
  st : SessionState
  store : Storage
  outcome : SetupOutcome
  derivedPins : List String
deriving DecidableEq

/-- `handleSetup`: validate the PIN format, check the confirmation, generate
a salt, derive the key, encrypt an empty collection, persist salt+envelope
in one `chrome.storage.local.set`, and only then adopt the key and the
empty collection as session state. -/
def handleSetup (pin confirm : String) (salt iv : List Nat) (persistOk : Bool)
    (st : SessionState) (store : Storage) : SetupRes :=
  if validatePin pin = false then ⟨st, store, .invalidPin, []⟩
  else if pin ≠ confirm then ⟨st, store, .mismatch, []⟩
  else
    let key := deriveKey pin salt
    let enc := encrypt ([] : List Snippet) key iv
    if persistOk then
      ⟨⟨some key, []⟩,
        { store with salt := some salt, encryptedData := toJS enc }, .ok, [pin]⟩
    else ⟨st, store, .persistFailed, [pin]⟩

/-- How `handleLogin` ends: early return on an empty PIN, rerouted to
onboarding when no salt exists, unlocked, or the caught decryption failure
(`Incorrect PIN` toast). -/
inductive LoginOutcome
  | emptyPin
  | onboarding
  | ok
  | authFailed
deriving DecidableEq

/-- Result of `handleLogin`, with the `deriveKey` call trace. -/
structure LoginRes where
  st : SessionState
  store : Storage
  outcome : LoginOutcome
  derivedPins : List String
deriving DecidableEq

/-- `handleLogin`: bail out on an empty PIN, load salt+envelope, derive the
key from whatever PIN was typed (the source performs no format validation
here), decrypt, and on success adopt the key and collection and run
`processPendingClips`.  Any throw lands in the catch: session and storage
untouched, `authFailed`. -/
def handleLogin (pin : String) (ids : Nat → Nat) (now : Nat) (iv : List Nat)
    (persistOk : Bool) (st : SessionState) (store : Storage) : LoginRes :=
  if pin = "" then ⟨st, store, .emptyPin, []⟩
  else
    match store.salt with
    | none => ⟨st, store, .onboarding, []⟩
    | some salt =>
      let key := deriveKey pin (salt.map (fun b => b % 256))
      match decrypt store.encryptedData key with
      | .error _ => ⟨st, store, .authFailed, [pin]⟩
      | .ok snips =>
        let r := processPendingClips ids now iv persistOk ⟨some key, snips⟩ store
        ⟨r.1, r.2, .ok, [pin]⟩

/-- How `handleChangePin` ends. -/
inductive ChangePinOutcome
  | invalidPin
  | mismatch
  | ok
  | persistFailed
deriving DecidableEq

/-- Result of `handleChangePin`, with the `deriveKey` call trace. -/
structure ChangePinRes where
  st : SessionState
  store : Storage
  outcome : ChangePinOutcome
  derivedPins : List String
deriving DecidableEq

/-- `handleChangePin`: validate the new PIN, generate a fresh salt, derive
the new key, re-encrypt the current collection under it, persist the new
salt and envelope in one `chrome.storage.local.set`, and only after that
write succeeds swap the session key; on a caught failure nothing changes. -/
def handleChangePin (p1 p2 : String) (newSalt iv : List Nat) (persistOk : Bool)
    (st : SessionState) (store : Storage) : ChangePinRes :=
  if validatePin p1 = false then ⟨st, store, .invalidPin, []⟩
  else if p1 ≠ p2 then ⟨st, store, .mismatch, []⟩
  else
    let newKey := deriveKey p1 newSalt
    let newEnc := encrypt st.snippets newKey iv
    if persistOk then
      ⟨{ st with key := some newKey },
        { store with salt := some newSalt, encryptedData := toJS newEnc },
        .ok, [p1]⟩
    else ⟨st, store, .persistFailed, [p1]⟩

/-- JavaScript `String.prototype.trim`, modelled over the character list
(whitespace set approximated by the common ASCII whitespace characters). -/
def isWsChar (c : Char) : Bool :=
  c = ' ' || c = '\t' || c = '\n' || c = '\r'

def trimStr (s : String) : String :=
  ⟨((s.data.dropWhile isWsChar).reverse.dropWhile isWsChar).reverse⟩

/-- The user-facing outcome of `saveSnippet`: the empty-content toast, or
the unconditional `Snippet saved securely` toast. -/
inductive SnippetFormOutcome
  | emptyContent
  | saved
deriving DecidableEq

/-- Result of `saveSnippet`: session and storage afterwards, the outcome of
the inner `saveEncrypted` (when it ran), and the user-facing outcome. -/
structure MutateRes where
  st : SessionState
  store : Storage
  save : Option SaveOutcome
  form : SnippetFormOutcome
deriving DecidableEq

/-- `saveSnippet`: build the snippet from the edit form (text content or
image data with optional caption), insert it (unshift) or update in place
(by `findIndex` on the edited id), then `saveEncrypted`, and report the
`Snippet saved securely` toast regardless of what `saveEncrypted` did. -/
def saveSnippet (content : String) (imageData : Option String)
    (editId : Option Nat) (newId now : Nat) (iv : List Nat) (persistOk : Bool)
    (st : SessionState) (store : Storage) : MutateRes :=
  let trimmed := trimStr content
  if trimmed = "" ∧ imageData = none then ⟨st, store, none, .emptyContent⟩
  else
    let snip : Snippet :=
      ⟨(match editId with | some eid => eid | none => newId),
        (if imageData.isSome then .image else .text),
        (match imageData with | some d => d | none => trimmed),
        (if imageData.isSome then some trimmed else none), [], now⟩
    let snips :=
      match editId with
      | some eid =>
        match st.snippets.findIdx? (fun s => decide (s.id = eid)) with
        | some idx => st.snippets.set idx snip
        | none => st.snippets
      | none => snip :: st.snippets
    let st2 := { st with snippets := snips }
    let sv := saveEncrypted st2 store iv persistOk
    ⟨st2, sv.1, some sv.2, .saved⟩

/-- `handleReset`: `chrome.storage.local.clear()` erases the whole record;
every key subsequently reads back as `undefined`. -/
def handleReset (_store : Storage) : Storage := ⟨none, .nullish, none, none⟩

/-- content.js: the guard `if (!monitoring) return` of the copy listener
(and equally the `!!r.monitoring` read that populates the settings toggle):
the flag is enabled only when storage holds `true`. -/
def monitoringEnabled (store : Storage) : Bool :=
  match store.monitoring with
  | some b => b
  | none => false

/-- content.js copy listener: when monitoring is enabled and the clipboard
text is nonempty with nonempty trim, send the `autoSave` message carrying
the text; otherwise send nothing. -/
def copyListener (store : Storage) (clipText : String) : Option String :=
  if monitoringEnabled store = false then none
  else if clipText ≠ "" ∧ (trimStr clipText).data.length > 0 then some clipText
  else none

/-- C5: Round-trip: for every JSON-serializable collection `C` and every key
`K`, decrypting the envelope produced by encrypting `C` under `K` (with the
fresh random byte-valued IV that call draws) with the same key `K` yields a
value equal to `C`. -/
theorem collection_roundtrip (c : List Snippet) (key : Nat) (iv : List Nat)
    (hiv : ∀ b ∈ iv, b < 256) :
    decrypt (toJS (encrypt c key iv)) key = .ok c :=
  decrypt_encrypt c key iv hiv

/-- Witness for C5 at the empty collection, key 0 and IV `[1, 2, 3]`. -/
theorem collection_roundtrip_witness :
    (∀ b ∈ ([1, 2, 3] : List Nat), b < 256) ∧
    decrypt (toJS (encrypt [] 0 [1, 2, 3])) 0 = .ok [] :=
  ⟨by decide, collection_roundtrip [] 0 [1, 2, 3] (by decide)⟩

/-- C3 counterexample: an envelope whose `iv` field is the number `-1` (a
malformed, non-array `iv` field) makes `new Uint8Array(encryptedObj.iv)`
throw a `RangeError` before the `try` block is entered, so `decrypt` fails
with an error different from the uniform decryption error. -/
theorem decrypt_error_not_uniform_cex :
    decrypt (.obj (.num (-1)) (.bytes [])) 0 = .error .rangeErr ∧
    JsError.rangeErr ≠ JsError.decryptionError :=
  ⟨rfl, by decide⟩

/-- C3 (amended): once the `iv` and `content` field coercions succeed (which
covers wrong keys, corrupted or tampered byte contents, and missing fields),
every `decrypt` failure is the single uniform decryption error; but the
coercions run before the `try`, so a null/undefined envelope throws a
`TypeError` and a field that cannot be coerced (e.g. a negative number)
throws a `RangeError`, both distinguishable from the uniform error. -/
theorem decrypt_uniform_error_amended (ivf cf : EnvField) (key : Nat) (e : JsError)
    (hiv : ∃ bs, toTypedArray ivf = .ok bs) (hcf : ∃ bs, toTypedArray cf = .ok bs) :
    (decrypt (.obj ivf cf) key = .error e → e = .decryptionError) ∧
    (∀ k, decrypt .nullish k = .error .typeErr) := by
  refine ⟨?_, fun k => rfl⟩
  intro hfail
  obtain ⟨ivb, h1⟩ := hiv
  obtain ⟨cb, h2⟩ := hcf
  simp only [decrypt, h1, h2] at hfail
  cases h3 : aesGcmDecrypt key ivb cb with
  | none => simp only [h3, Except.error.injEq] at hfail; exact hfail.symm
  | some pt =>
    simp only [h3] at hfail
    cases h4 : decCollection (bytesToNat pt) with
    | none => simp only [h4, Except.error.injEq] at hfail; exact hfail.symm
    | some c => simp only [h4] at hfail; exact absurd hfail (by simp)

/-- Witness for C3's amended theorem: a wrong-key decryption of a coercible
envelope fails, and fails with the uniform decryption error. -/
theorem decrypt_uniform_error_amended_witness :
    (∃ bs, toTypedArray (.bytes []) = .ok bs) ∧
    decrypt (.obj (.bytes []) (.bytes [])) 1 = .error .decryptionError ∧
    (decrypt (.obj (.bytes []) (.bytes [])) 1 = .error .decryptionError →
      JsError.decryptionError = .decryptionError) :=
  ⟨⟨[], rfl⟩, rfl,
    (decrypt_uniform_error_amended (.bytes []) (.bytes []) 1 .decryptionError
      ⟨[], rfl⟩ ⟨[], rfl⟩).1⟩

/-- C8: after an insertion into a pending queue holding at most 20 entries
the queue still holds at most 20 entries (the oldest entry is popped when
the bound is exceeded); an insertion whose content equals the head's
content leaves the queue unchanged, and the duplicate comparison looks at
the head only (any other insertion goes through the unshift-and-bound
step even if its content appears deeper in the queue). -/
theorem addToPending_bound_and_head_dup (content : String) (now : Nat)
    (list : List PendingClip) (hlen : list.length ≤ 20) :
    (addToPending content now list).length ≤ 20 ∧
    (∀ first rest, list = first :: rest → first.content = content →
      addToPending content now list = list) ∧
    (∀ first rest, list = first :: rest → first.content ≠ content →
      addToPending content now list = pushPending content now list) := by
  refine ⟨?_, ?_, ?_⟩
  · cases list with
    | nil => simp [addToPending, pushPending]
    | cons first rest =>
      by_cases hdup : first.content = content
      · simpa [addToPending, hdup] using hlen
      · simp only [addToPending, if_neg hdup, pushPending]
        split
        · rename_i hgt
          simp only [List.length_dropLast, List.length_cons] at *
          omega
        · rename_i hle
          simp only [List.length_cons] at *
          omega
  · rintro first rest rfl hdup
    simp [addToPending, hdup]
  · rintro first rest rfl hdup
    simp [addToPending, hdup]

/-- Witness for C8 at the empty queue. -/
theorem addToPending_bound_and_head_dup_witness :
    ([] : List PendingClip).length ≤ 20 ∧
    (addToPending "x" 0 []).length ≤ 20 :=
  ⟨by decide, (addToPending_bound_and_head_dup "x" 0 [] (by decide)).1⟩

/-- C9 counterexample: invoking the mutate path (`saveSnippet` →
`saveEncrypted`) with no session key held does not fail with the spec's
`StateError`: `saveEncrypted` silently returns (`noKey`), storage is
untouched, yet the in-memory collection is still mutated and the user is
told the snippet was saved. -/
theorem mutate_locked_silent_cex :
    (saveSnippet "hello" none none 7 9 [] true ⟨none, []⟩
        ⟨some [], .nullish, none, none⟩).save = some .noKey ∧
    some SaveOutcome.noKey ≠ some SaveOutcome.stateError ∧
    (saveSnippet "hello" none none 7 9 [] true ⟨none, []⟩
        ⟨some [], .nullish, none, none⟩).st.snippets
      = [⟨7, .text, "hello", none, [], 9⟩] ∧
    (saveSnippet "hello" none none 7 9 [] true ⟨none, []⟩
        ⟨some [], .nullish, none, none⟩).store = ⟨some [], .nullish, none, none⟩ ∧
    (saveSnippet "hello" none none 7 9 [] true ⟨none, []⟩
        ⟨some [], .nullish, none, none⟩).form = .saved :=
  ⟨by decide, by decide, by decide, by decide, by decide⟩

/-- C9 (amended): invoking mutate while Locked raises no `StateError` — the
persistence step is silently skipped (`saveEncrypted` returns without doing
anything when no session key is held), storage is unchanged, and the
operation still reports the success toast. -/
theorem mutate_locked_silent (content : String) (imageData : Option String)
    (editId : Option Nat) (newId now : Nat) (iv : List Nat) (persistOk : Bool)
    (st : SessionState) (store : Storage) (hkey : st.key = none)
    (hvalid : ¬(trimStr content = "" ∧ imageData = none)) :
    (saveSnippet content imageData editId newId now iv persistOk st store).store
      = store ∧
    (saveSnippet content imageData editId newId now iv persistOk st store).save
      = some .noKey ∧
    (saveSnippet content imageData editId newId now iv persistOk st store).form
      = .saved ∧
    saveEncrypted st store iv persistOk = (store, .noKey) := by
  refine ⟨?_, ?_, ?_, by simp [saveEncrypted, hkey]⟩ <;>
    simp [saveSnippet, if_neg hvalid, saveEncrypted, hkey]

/-- Witness for C9's amended theorem at a concrete locked session. -/
theorem mutate_locked_silent_witness :
    (⟨none, []⟩ : SessionState).key = none ∧
    ¬(trimStr "hello" = "" ∧ (none : Option String) = none) ∧
    (saveSnippet "hello" none none 7 9 [] true ⟨none, []⟩
        ⟨some [], .nullish, none, none⟩).store = ⟨some [], .nullish, none, none⟩ :=
  ⟨rfl, by decide,
    (mutate_locked_silent "hello" none none 7 9 [] true ⟨none, []⟩
      ⟨some [], .nullish, none, none⟩ rfl (by decide)).1⟩

/-- C1: Rekey atomicity: for a `rekey(newPin)` invocation from the Unlocked
state (passing format validation and confirmation), when the single
`chrome.storage.local.set` persisting the new salt+envelope succeeds, the
store holds the matching new pair and the session key is swapped to the new
key; when it fails, the session key is still the old key and the persisted
salt/envelope are the untouched old pair — never a mixture. -/
theorem rekey_atomic (p1 p2 : String) (newSalt iv : List Nat) (persistOk : Bool)
    (st : SessionState) (store : Storage) (oldKey : Nat)
    (hval : validatePin p1 = true) (hconf : p1 = p2) (hkey : st.key = some oldKey) :
    (persistOk = true →
      handleChangePin p1 p2 newSalt iv persistOk st store =
        ⟨{ st with key := some (deriveKey p1 newSalt) },
          { store with salt := some newSalt, encryptedData := toJS (encrypt st.snippets (deriveKey p1 newSalt) iv) },
          .ok, [p1]⟩) ∧
    (persistOk = false →
      handleChangePin p1 p2 newSalt iv persistOk st store
        = ⟨st, store, .persistFailed, [p1]⟩ ∧
      (handleChangePin p1 p2 newSalt iv persistOk st store).st.key = some oldKey ∧
      (handleChangePin p1 p2 newSalt iv persistOk st store).store.salt = store.salt ∧
      (handleChangePin p1 p2 newSalt iv persistOk st store).store.encryptedData
        = store.encryptedData) := by
  subst hconf
  refine ⟨fun hok => ?_, fun hfails => ?_⟩
  · subst hok
    simp [handleChangePin, hval]
  · subst hfails
    simp [handleChangePin, hval, hkey]

/-- Witness for C1 at PIN `123456` with a failing persistence. -/
theorem rekey_atomic_witness :
    validatePin "123456" = true ∧
    (handleChangePin "123456" "123456" [] [] false ⟨some 7, []⟩
        ⟨none, .nullish, none, none⟩).st.key = some 7 :=
  ⟨by decide,
    ((rekey_atomic "123456" "123456" [] [] false ⟨some 7, []⟩
      ⟨none, .nullish, none, none⟩ 7 (by decide) rfl rfl).2 rfl).2.1⟩

/-- C4 counterexample: `handleLogin` performs no PIN-format validation;
with the malformed PIN `12345` and an existing salt, key derivation runs
(its call trace is `["12345"]`), contradicting the claim that derivation
never runs on a malformed PIN. -/
theorem login_derives_malformed_pin_cex :
    validatePin "12345" = false ∧
    (handleLogin "12345" (fun _ => 0) 0 [] true ⟨none, []⟩
        ⟨some [], .nullish, none, none⟩).derivedPins = ["12345"] :=
  ⟨by decide, by decide⟩

/-- C4 (amended): setup and rekey reject a malformed PIN before any key
derivation (no `deriveKey` call, no state change); unlock, however, only
rejects the empty PIN — any nonempty PIN, malformed or not, reaches key
derivation there (where a wrong PIN then simply fails authentication). -/
theorem pin_validation_amended (pin confirm p2 : String)
    (salt iv newSalt siv salt2 : List Nat) (persistOk : Bool)
    (st : SessionState) (store : Storage) (ids : Nat → Nat) (now : Nat)
    (hmal : validatePin pin = false) :
    handleSetup pin confirm salt iv persistOk st store
      = ⟨st, store, .invalidPin, []⟩ ∧
    handleChangePin pin p2 newSalt iv persistOk st store
      = ⟨st, store, .invalidPin, []⟩ ∧
    (handleLogin pin ids now siv persistOk st
        { store with salt := some salt2 }).derivedPins
      = if pin = "" then [] else [pin] := by
  refine ⟨by simp [handleSetup, hmal], by simp [handleChangePin, hmal], ?_⟩
  by_cases hp : pin = ""
  · simp [handleLogin, hp]
  · simp only [handleLogin, if_neg hp]
    cases hdec : decrypt ({ store with salt := some salt2 } : Storage).encryptedData
        (deriveKey pin (salt2.map (fun b => b % 256))) with
    | error err => simp [hdec, hp]
    | ok snips => simp [hdec, hp]

/-- Witness for C4's amended theorem at the malformed PIN `12a456`. -/
theorem pin_validation_amended_witness :
    validatePin "12a456" = false ∧
    handleSetup "12a456" "12a456" [] [] true ⟨none, []⟩ ⟨none, .nullish, none, none⟩
      = ⟨⟨none, []⟩, ⟨none, .nullish, none, none⟩, .invalidPin, []⟩ :=
  ⟨by decide,
    (pin_validation_amended "12a456" "12a456" "12a456" [] [] [] [] [] true
      ⟨none, []⟩ ⟨none, .nullish, none, none⟩ (fun _ => 0) 0 (by decide)).1⟩

/-- C2 counterexample: a pending queue whose single clip duplicates an
existing snippet's content makes `processPendingClips` add zero items, and
the queue is then NOT cleared — it survives in storage, contradicting the
claim that the queue is cleared even when zero items were added. -/
theorem pending_queue_not_cleared_cex :
    (processPendingClips (fun _ => 0) 0 [] true
        ⟨some 0, [⟨0, .text, "foo", none, [], 0⟩]⟩
        ⟨some [], .nullish, some [⟨"foo", 5⟩], none⟩).2.pendingClips
      = some [⟨"foo", 5⟩] ∧
    some [(⟨"foo", 5⟩ : PendingClip)] ≠ (none : Option (List PendingClip)) :=
  ⟨by decide, by decide⟩

/-- C2 (amended): after pending-queue reconciliation the queue is removed
from storage exactly when it was nonempty and at least one clip was added;
an absent queue, an empty queue, and a queue all of whose clips duplicated
existing snippet contents are left unchanged (the all-duplicates queue is
retained, not discarded). -/
theorem pending_queue_cleared_iff_added (ids : Nat → Nat) (now : Nat)
    (iv : List Nat) (persistOk : Bool) (st : SessionState) (store : Storage) :
    (processPendingClips ids now iv persistOk st store).2.pendingClips =
      match store.pendingClips with
      | none => none
      | some clips =>
        if clips.isEmpty then some clips
        else if (ingestClips ids now clips (st.snippets, 0)).2 > 0 then none
        else some clips := by
  unfold processPendingClips
  cases h : store.pendingClips with
  | none => simp [h]
  | some clips =>
    by_cases hemp : clips.isEmpty
    · simp [hemp, h]
    · by_cases hcnt : (ingestClips ids now clips (st.snippets, 0)).2 > 0
      · simp [hemp, hcnt]
      · simp [hemp, hcnt, h]

/-- C6: wrong-PIN idempotence: an unlock attempt with a nonempty incorrect
PIN against a store holding a salt and an envelope encrypted under the real
PIN's key leaves session state and storage (salt, envelope, pending queue)
exactly unchanged with outcome `authFailed`, and therefore arbitrarily many
repeated attempts leave them unchanged too. -/
theorem wrong_pin_idempotent (pin realPin : String) (salt iv : List Nat)
    (c : List Snippet) (ids : Nat → Nat) (now : Nat) (siv : List Nat)
    (persistOk : Bool) (st : SessionState) (store : Storage)
    (hsalt : ∀ b ∈ salt, b < 256) (hs : store.salt = some salt)
    (he : store.encryptedData = toJS (encrypt c (deriveKey realPin salt) iv))
    (hpin : pin ≠ realPin) (hne : pin ≠ "") :
    handleLogin pin ids now siv persistOk st store
      = ⟨st, store, .authFailed, [pin]⟩ ∧
    ∀ n : Nat,
      (fun p : SessionState × Storage =>
        ((handleLogin pin ids now siv persistOk p.1 p.2).st,
          (handleLogin pin ids now siv persistOk p.1 p.2).store))^[n] (st, store)
        = (st, store) := by
  have hkne : deriveKey pin salt ≠ deriveKey realPin salt :=
    deriveKey_pin_ne salt hpin
  have hdec : decrypt store.encryptedData
      (deriveKey pin (salt.map (fun b => b % 256)))
      = .error .decryptionError := by
    rw [map_mod_eq_self hsalt, he]
    exact decrypt_wrong_key c _ _ iv hkne
  have hmain : handleLogin pin ids now siv persistOk st store
      = ⟨st, store, .authFailed, [pin]⟩ := by
    unfold handleLogin
    rw [if_neg hne, hs]
    simp only [hdec]
  exact ⟨hmain, fun n => Function.iterate_fixed (by simp [hmain]) n⟩

/-- Witness for C6: PIN `654321` against a vault set up with `123456`. -/
theorem wrong_pin_idempotent_witness :
    ("654321" : String) ≠ "123456" ∧
    handleLogin "654321" (fun _ => 0) 0 [] true ⟨none, []⟩
        ⟨some [], toJS (encrypt [] (deriveKey "123456" []) []), none, none⟩
      = ⟨⟨none, []⟩,
          ⟨some [], toJS (encrypt [] (deriveKey "123456" []) []), none, none⟩,
          .authFailed, ["654321"]⟩ :=
  ⟨by decide,
    (wrong_pin_idempotent "654321" "123456" [] [] [] (fun _ => 0) 0 [] true
      ⟨none, []⟩ ⟨some [], toJS (encrypt [] (deriveKey "123456" []) []), none, none⟩
      (by simp) rfl rfl (by decide) (by decide)).1⟩

/-- The `forEach` loop of `processPendingClips`, characterized: it prepends
a block `adds` of fresh snippets — each text-typed, tagged `auto`, stamped
`now`, drawn from the pending contents, and not duplicating any existing
snippet content — returns the count of that block, covers every pending
clip's content in the result, and never adds the same content twice. -/
theorem ingestClips_spec (ids : Nat → Nat) (now : Nat) :
    ∀ (clips : List PendingClip) (snips : List Snippet) (cnt : Nat),
      ∃ adds : List Snippet,
        ingestClips ids now clips (snips, cnt) = (adds ++ snips, cnt + adds.length) ∧
        (∀ s ∈ adds, s.type = .text ∧ s.tags = ["auto"] ∧ s.date = now ∧
          s.content ∈ clips.map PendingClip.content ∧
          s.content ∉ snips.map Snippet.content) ∧
        (∀ clip ∈ clips, clip.content ∈ (adds ++ snips).map Snippet.content) ∧
        (adds.map Snippet.content).Nodup := by
  intro clips
  induction clips with
  | nil =>
    intro snips cnt
    exact ⟨[], by simp [ingestClips], by simp, by simp, by simp⟩
  | cons clip rest ih =>
    intro snips cnt
    cases hmatch : snips.any (fun s => decide (s.content = clip.content)) with
    | true =>
      have hex : ∃ s, s ∈ snips ∧ s.content = clip.content := by
        simpa only [List.any_eq_true, decide_eq_true_eq] using hmatch
      obtain ⟨sdup, hsdup, hsc⟩ := hex
      obtain ⟨adds, heq, hprops, hcover, hnodup⟩ := ih snips cnt
      refine ⟨adds, ?_, ?_, ?_, hnodup⟩
      · simp only [ingestClips, hmatch]
        exact heq
      · intro s hsmem
        obtain ⟨h1, h2, h3, h4, h5⟩ := hprops s hsmem
        refine ⟨h1, h2, h3, ?_, h5⟩
        simp only [List.map_cons]
        exact List.mem_cons_of_mem _ h4
      · intro cc hcc
        rcases List.mem_cons.mp hcc with rfl | hcc'
        · exact List.mem_map.mpr ⟨sdup, List.mem_append.mpr (Or.inr hsdup), hsc⟩
        · exact hcover cc hcc'
    | false =>
      have hno : clip.content ∉ snips.map Snippet.content := by
        intro hmem
        obtain ⟨s, hsm, hsc⟩ := List.mem_map.mp hmem
        have : snips.any (fun s => decide (s.content = clip.content)) = true :=
          List.any_eq_true.mpr ⟨s, hsm, by simp [hsc]⟩
        simp [hmatch] at this
      obtain ⟨adds, heq, hprops, hcover, hnodup⟩ :=
        ih (⟨ids cnt, .text, clip.content, none, ["auto"], now⟩ :: snips) (cnt + 1)
      refine ⟨adds ++ [⟨ids cnt, .text, clip.content, none, ["auto"], now⟩], ?_, ?_, ?_, ?_⟩
      · have hstep : ingestClips ids now (clip :: rest) (snips, cnt)
            = ingestClips ids now rest
                (⟨ids cnt, .text, clip.content, none, ["auto"], now⟩ :: snips, cnt + 1) := by
          simp [ingestClips, hmatch]
        rw [hstep, heq]
        simp only [Prod.mk.injEq]
        constructor
        · simp [List.append_assoc]
        · simp only [List.length_append, List.length_singleton]
          omega
      · intro s hsmem
        rcases List.mem_append.mp hsmem with hsmem' | hsmem'
        · obtain ⟨h1, h2, h3, h4, h5⟩ := hprops s hsmem'
          refine ⟨h1, h2, h3, ?_, ?_⟩
          · simp only [List.map_cons]
            exact List.mem_cons_of_mem _ h4
          · simp only [List.map_cons, List.mem_cons, not_or] at h5
            exact h5.2
        · have hse : s = ⟨ids cnt, .text, clip.content, none, ["auto"], now⟩ := by
            simpa using hsmem'
          subst hse
          exact ⟨rfl, rfl, rfl, by simp, hno⟩
      · intro cc hcc
        rcases List.mem_cons.mp hcc with rfl | hcc'
        · exact List.mem_map.mpr
            ⟨⟨ids cnt, .text, cc.content, none, ["auto"], now⟩, by simp, rfl⟩
        · have := hcover cc hcc'
          simpa [List.append_assoc] using this
      · rw [List.map_append]
        refine List.Nodup.append hnodup (by simp) ?_
        intro a ha hb
        obtain ⟨s, hsm, rfl⟩ := List.mem_map.mp ha
        obtain ⟨_, _, _, _, h5⟩ := hprops s hsm
        apply h5
        simp only [List.map_cons, List.mem_cons]
        left
        simpa using hb

/-- C7: pending-queue reconciliation: every pending clip whose content
matches an existing snippet's content is skipped, every other pending clip
becomes a fresh text snippet tagged `auto` prepended to the collection (a
content never twice); in the concrete scenario `pendingClips = [foo, bar]`
on an empty collection, unlock-time reconciliation yields exactly the two
new `auto`-tagged snippets and the pending queue is cleared. -/
theorem pending_reconciliation_spec (ids : Nat → Nat) (now : Nat)
    (siv : List Nat) (persistOk : Bool) (st : SessionState) (store : Storage)
    (clips : List PendingClip) :
    (∃ adds : List Snippet,
      (processPendingClips ids now siv persistOk st
          { store with pendingClips := some clips }).1.snippets
        = adds ++ st.snippets ∧
      (∀ s ∈ adds, s.type = .text ∧ s.tags = ["auto"] ∧ s.date = now ∧
        s.content ∈ clips.map PendingClip.content ∧
        s.content ∉ st.snippets.map Snippet.content) ∧
      (∀ clip ∈ clips, clip.content ∈ (adds ++ st.snippets).map Snippet.content) ∧
      (adds.map Snippet.content).Nodup) ∧
    (processPendingClips (fun i => i) 5 [] true ⟨some 0, []⟩
        ⟨some [], .nullish, some [⟨"foo", 1⟩, ⟨"bar", 2⟩], none⟩).1.snippets
      = [⟨1, .text, "bar", none, ["auto"], 5⟩, ⟨0, .text, "foo", none, ["auto"], 5⟩] ∧
    (processPendingClips (fun i => i) 5 [] true ⟨some 0, []⟩
        ⟨some [], .nullish, some [⟨"foo", 1⟩, ⟨"bar", 2⟩], none⟩).2.pendingClips
      = none := by
  refine ⟨?_, by decide, by decide⟩
  by_cases hemp : clips.isEmpty
  · have hnil : clips = [] := List.isEmpty_iff.mp hemp
    subst hnil
    refine ⟨[], by simp [processPendingClips], by simp, by simp, by simp⟩
  · obtain ⟨adds, heq, hprops, hcover, hnodup⟩ :=
      ingestClips_spec ids now clips st.snippets 0
    refine ⟨adds, ?_, hprops, hcover, hnodup⟩
    simp only [processPendingClips, if_neg hemp, heq]
    split <;> rfl

/-- C10: `reset` erases the entire local storage record, not only the vault
fields — in particular the collaborator-owned `monitoring` flag is cleared
too, so after a reset the auto-monitoring toggle reads as disabled and the
content-script copy listener captures nothing. -/
theorem reset_clears_all (store : Storage) (clipText : String) :
    handleReset store = ⟨none, .nullish, none, none⟩ ∧
    (handleReset store).monitoring = none ∧
    monitoringEnabled (handleReset store) = false ∧
    copyListener (handleReset store) clipText = none :=
  ⟨rfl, rfl, rfl, rfl⟩

end Modcore
